import Mathlib

/-
Shallow embedding of the SPSC ring buffer in src/src/ring_buffer.rs.

The Rust program keeps one shared RingBufferInner (a heap vector, a u32
capacity, and two atomic u32 cursors head and tail) behind an Arc, plus two
handles: Writer (caching current_index, a copy of tail) and Reader (caching
current_index, a copy of head).  A sequential execution is embedded by
flattening the shared inner object and the two cached indices into one record.
All u32 arithmetic is modelled on Nat with an explicit modulus 2^32; fallible
steps (panics: modulo by zero in get_mut and get, out-of-range indexing and
unwrap, and the capacity.try_into().unwrap() in RingBuffer::new) are modelled
with Option, where none is a panic.
-/

/-- Modulus of the u32 counters: 2^32. -/
def u32size : Nat := 4294967296

/-- Rust u32 wrapping_add on values below u32size. -/
def wrapAdd (a b : Nat) : Nat := (a + b) % u32size

/-- Rust u32 wrapping_sub on values below u32size. -/
def wrapSub (a b : Nat) : Nat := (a + (u32size - b % u32size)) % u32size

/-- Flattened state: the fields of RingBufferInner plus the cached
current_index of the Writer handle (writerIndex) and of the Reader handle
(readerIndex).  buffer is the heap vector reached through the NonNull
pointer; capacity, head and tail are u32 values. -/
structure SpscState (T : Type) where
  buffer : List T
  capacity : Nat
  head : Nat
  tail : Nat
  writerIndex : Nat
  readerIndex : Nat
deriving DecidableEq, Repr

/-- The single error kind of the source. -/
inductive RingBufferError where
  | Initialize
deriving DecidableEq, Repr

/-- Address produced by Box::into_raw(Box::new buffer).  Rust guarantees that
the pointer of a live Box allocation is non-null (allocation failure aborts
the process instead of returning null), so the address is modelled abstractly
as the non-null value 1. -/
def boxIntoRaw {T : Type} (_buffer : List T) : Nat := 1

/-- NonNull::new: some for a non-null address, none for a null one. -/
def nonNullNew (addr : Nat) : Option Nat :=
  if addr = 0 then none else some addr

/-- State of a freshly constructed buffer: storage of capacity copies of the
zeroed element, both cursors 0, and both cached indices 0 (Writer::new copies
tail, Reader::new copies head). -/
def initState {T : Type} (zeroed : T) (capacity : Nat) : SpscState T :=
  { buffer := List.replicate capacity zeroed
    capacity := capacity
    head := 0
    tail := 0
    writerIndex := 0
    readerIndex := 0 }

/-- RingBuffer::new.  The vector is filled with capacity copies of
MaybeUninit::zeroed().assume_init(), passed here explicitly as zeroed; the
boxed vector pointer goes through NonNull::new (err branch: Initialize), and
capacity.try_into().unwrap() panics (none) when the usize capacity does not
fit in u32.  On success the Writer and Reader handles are created with cached
indices equal to tail resp. head. -/
def RingBuffer.new {T : Type} (zeroed : T) (capacity : Nat) :
    Option (Except RingBufferError (SpscState T)) :=
  let buffer := List.replicate capacity zeroed
  match nonNullNew (boxIntoRaw buffer) with
  | none => some (Except.error RingBufferError.Initialize)
  | some _ =>
    if capacity < u32size then
      some (Except.ok (initState zeroed capacity))
    else
      none

namespace Writer

/-- Writer::available: capacity - tail.wrapping_sub(head).  The outer
subtraction is plain u32 subtraction; on every state satisfying the capacity
invariant it cannot underflow, and the embedding uses the wrapping (release
build) semantics. -/
def available {T : Type} (s : SpscState T) : Nat :=
  wrapSub s.capacity (wrapSub s.tail s.head)

/-- Slot index of Writer::get_mut: current_index.wrapping_add(index) %
capacity, then Vec::get_mut(..).unwrap().  none models the panic of the %
operator at capacity 0 and of the unwrap at an out-of-range slot. -/
def get_mut {T : Type} (s : SpscState T) (index : Nat) : Option Nat :=
  if s.capacity = 0 then none
  else
    let i := wrapAdd s.writerIndex index % s.capacity
    if i < s.buffer.length then some i else none

/-- The store loop of Writer::write: for index in 0..burst,
*get_mut(index) = buffer[index].  Returns the updated storage vector, none on
any panic (slot panic or out-of-range read of the input slice). -/
def storeLoop {T : Type} (s : SpscState T) (buffer : List T) :
    Nat → Option (List T)
  | 0 => some s.buffer
  | n + 1 => do
    let st ← storeLoop s buffer n
    let i ← get_mut s n
    let v ← buffer[n]?
    some (st.set i v)

/-- Writer::advance_index: tail.fetch_add(offset) returns the previous tail;
the cached index becomes previous.wrapping_add(offset). -/
def advance_index {T : Type} (s : SpscState T) (offset : Nat) : SpscState T :=
  { s with tail := wrapAdd s.tail offset
           writerIndex := wrapAdd s.tail offset }

/-- Writer::write: when available > 0, stores burst = min(available,
buffer.len() as u32) elements and advances tail by burst; otherwise writes
nothing and returns 0. -/
def write {T : Type} (s : SpscState T) (buffer : List T) :
    Option (Nat × SpscState T) :=
  let avail := available s
  if avail > 0 then
    let burst := min avail (buffer.length % u32size)
    match storeLoop s buffer burst with
    | none => none
    | some st => some (burst, advance_index { s with buffer := st } burst)
  else
    some (0, s)

end Writer

namespace Reader

/-- Reader::available: tail.wrapping_sub(head). -/
def available {T : Type} (s : SpscState T) : Nat :=
  wrapSub s.tail s.head

/-- Reader::get: current_index.wrapping_add(index) % capacity, then
Vec::get(..).unwrap(); none models the modulo-by-zero panic at capacity 0 and
the unwrap panic at an out-of-range slot. -/
def get {T : Type} (s : SpscState T) (index : Nat) : Option T :=
  if s.capacity = 0 then none
  else s.buffer[wrapAdd s.readerIndex index % s.capacity]?

/-- The copy loop of Reader::read: for index in 0..burst,
buffer[index] = *get(index).  The slice write panics (none) when the index is
outside the out buffer. -/
def copyLoop {T : Type} (s : SpscState T) (out : List T) :
    Nat → Option (List T)
  | 0 => some out
  | n + 1 => do
    let o ← copyLoop s out n
    let v ← get s n
    if n < o.length then some (o.set n v) else none

/-- Reader::advance_index: head.fetch_add(offset) returns the previous head;
the cached index becomes previous.wrapping_add(offset). -/
def advance_index {T : Type} (s : SpscState T) (offset : Nat) : SpscState T :=
  { s with head := wrapAdd s.head offset
           readerIndex := wrapAdd s.head offset }

/-- Reader::read: when available > 0, copies burst = min(available,
buffer.len() as u32) elements into the out buffer and advances head by burst;
otherwise copies nothing and returns 0.  Returns (count, final out buffer,
new state). -/
def read {T : Type} (s : SpscState T) (out : List T) :
    Option (Nat × List T × SpscState T) :=
  let avail := available s
  if avail > 0 then
    let burst := min avail (out.length % u32size)
    match copyLoop s out burst with
    | none => none
    | some o => some (burst, o, advance_index s burst)
  else
    some (0, out, s)

end Reader

/-- A sequential operation on the buffer: a writer-side write of a slice or a
reader-side read into an out buffer of given contents. -/
inductive SpscOp (T : Type) where
  | write (buffer : List T)
  | read (out : List T)

/-- One sequential step: the state transition of the operation, none on
panic. -/
def step {T : Type} (s : SpscState T) : SpscOp T → Option (SpscState T)
  | SpscOp.write b => (Writer.write s b).map Prod.snd
  | SpscOp.read o => (Reader.read s o).map (fun r => r.2.2)

/-- Run a finite sequence of operations. -/
def run {T : Type} (s : SpscState T) : List (SpscOp T) → Option (SpscState T)
  | [] => some s
  | op :: ops => do
    let s1 ← step s op
    run s1 ops

/-- Invariant of reachable states: both cursors and the capacity are u32
values, the wraparound difference tail - head is at most capacity, the heap
vector has exactly capacity elements, and each cached handle index agrees
with its cursor. -/
def SpscInv {T : Type} (s : SpscState T) : Prop :=
  s.head < u32size ∧ s.tail < u32size ∧ s.capacity < u32size ∧
  wrapSub s.tail s.head ≤ s.capacity ∧
  s.buffer.length = s.capacity ∧
  s.writerIndex = s.tail ∧ s.readerIndex = s.head

instance {T : Type} (s : SpscState T) : Decidable (SpscInv s) := by
  unfold SpscInv; infer_instance

/-- The wrapping difference of two u32 values that are in order is the plain
difference. -/
lemma wrapSub_of_le {a b : Nat} (ha : a < u32size) (hle : b ≤ a) :
    wrapSub a b = a - b := by
  simp only [wrapSub, u32size] at *
  omega

/-- Advancing the minuend of a wrapping difference by k advances the
difference by k, as long as the true difference stays below the modulus. -/
lemma wrapSub_wrapAdd_left {a b k : Nat} (_ha : a < u32size)
    (_hb : b < u32size) (hk : wrapSub a b + k < u32size) :
    wrapSub (wrapAdd a k) b = wrapSub a b + k := by
  simp only [wrapSub, wrapAdd, u32size] at *
  omega

/-- Advancing the subtrahend of a wrapping difference by k lowers the
difference by k, as long as k is at most the difference. -/
lemma wrapSub_wrapAdd_right {a b k : Nat} (_ha : a < u32size)
    (_hb : b < u32size) (hk : k ≤ wrapSub a b) :
    wrapSub a (wrapAdd b k) = wrapSub a b - k := by
  simp only [wrapSub, wrapAdd, u32size] at *
  omega

lemma wrapAdd_lt (a k : Nat) : wrapAdd a k < u32size := by
  simp only [wrapAdd, u32size]
  omega

lemma wrapAdd_zero {a : Nat} (ha : a < u32size) : wrapAdd a 0 = a := by
  simp only [wrapAdd, u32size] at *
  omega

namespace Writer

lemma storeLoop_length {T : Type} {s : SpscState T} {b : List T} {n : Nat}
    {st : List T} (h : storeLoop s b n = some st) :
    st.length = s.buffer.length := by
  induction n generalizing st with
  | zero =>
    simp only [storeLoop, Option.some.injEq] at h
    subst h; rfl
  | succ n ih =>
    simp only [storeLoop, Option.bind_eq_bind, Option.bind_eq_some] at h
    obtain ⟨st0, hst0, i, hi, v, hv, hset⟩ := h
    simp only [Option.some.injEq] at hset
    subst hset
    simp [List.length_set, ih hst0]

lemma storeLoop_isSome {T : Type} {s : SpscState T} {b : List T} {n : Nat}
    (hcap : s.capacity ≠ 0) (hlen : s.buffer.length = s.capacity)
    (hn : n ≤ b.length) : ∃ st, storeLoop s b n = some st := by
  induction n with
  | zero => exact ⟨s.buffer, rfl⟩
  | succ n ih =>
    obtain ⟨st, hst⟩ := ih (Nat.le_of_succ_le hn)
    refine ⟨st.set (wrapAdd s.writerIndex n % s.capacity) (b.get ⟨n, hn⟩), ?_⟩
    have hidx : wrapAdd s.writerIndex n % s.capacity < s.buffer.length := by
      rw [hlen]
      exact Nat.mod_lt _ (Nat.pos_of_ne_zero hcap)
    simp only [storeLoop, hst, Option.bind_eq_bind, Option.some_bind, get_mut,
      hcap, if_false, hidx, if_true, List.getElem?_eq_getElem hn,
      Option.some_bind, List.get_eq_getElem]

end Writer

namespace Reader

lemma copyLoop_length {T : Type} {s : SpscState T} {out : List T} {n : Nat}
    {o : List T} (h : copyLoop s out n = some o) :
    o.length = out.length := by
  induction n generalizing o with
  | zero =>
    simp only [copyLoop, Option.some.injEq] at h
    subst h; rfl
  | succ n ih =>
    simp only [copyLoop, Option.bind_eq_bind, Option.bind_eq_some] at h
    obtain ⟨o0, ho0, v, hv, hset⟩ := h
    split at hset
    · simp only [Option.some.injEq] at hset
      subst hset
      simp [List.length_set, ih ho0]
    · exact absurd hset (by simp)

lemma copyLoop_isSome {T : Type} {s : SpscState T} {out : List T} {n : Nat}
    (hcap : s.capacity ≠ 0) (hlen : s.buffer.length = s.capacity)
    (hn : n ≤ out.length) : ∃ o, copyLoop s out n = some o := by
  induction n with
  | zero => exact ⟨out, rfl⟩
  | succ n ih =>
    obtain ⟨o, ho⟩ := ih (Nat.le_of_succ_le hn)
    have hidx : wrapAdd s.readerIndex n % s.capacity < s.buffer.length := by
      rw [hlen]
      exact Nat.mod_lt _ (Nat.pos_of_ne_zero hcap)
    have hno : n < o.length := by
      rw [copyLoop_length ho]
      exact hn
    refine ⟨o.set n (s.buffer.get ⟨wrapAdd s.readerIndex n % s.capacity, hidx⟩), ?_⟩
    simp only [copyLoop, ho, Option.bind_eq_bind, Option.some_bind, get, hcap,
      if_false, List.getElem?_eq_getElem hidx, Option.some_bind, hno, if_true,
      List.get_eq_getElem]

end Reader

/-- Characterization of Writer::write on states satisfying the invariant: it
always succeeds (no panic), returns min(free, len as u32), keeps head, the
capacity, the storage length and the reader side unchanged, and advances tail
by the returned count. -/
lemma write_some {T : Type} {s : SpscState T} (b : List T) (h : SpscInv s) :
    ∃ s', Writer.write s b =
        some (min (Writer.available s) (b.length % u32size), s') ∧
      SpscInv s' ∧ s'.head = s.head ∧ s'.capacity = s.capacity ∧
      s'.buffer.length = s.buffer.length ∧ s'.readerIndex = s.readerIndex ∧
      s'.tail = wrapAdd s.tail (min (Writer.available s) (b.length % u32size)) := by
  obtain ⟨hh, ht, hc, hd, hlen, hw, hr⟩ := h
  have havail : Writer.available s = s.capacity - wrapSub s.tail s.head :=
    wrapSub_of_le hc hd
  by_cases h0 : Writer.available s = 0
  · refine ⟨s, ?_, ⟨hh, ht, hc, hd, hlen, hw, hr⟩, rfl, rfl, rfl, rfl, ?_⟩
    · simp only [Writer.write, h0, Nat.lt_irrefl, if_false, Nat.zero_min]
    · rw [h0, Nat.zero_min, wrapAdd_zero ht]
  · have hpos : 0 < Writer.available s := Nat.pos_of_ne_zero h0
    have hcap0 : s.capacity ≠ 0 := by omega
    set burst := min (Writer.available s) (b.length % u32size) with hburst
    have hble : burst ≤ b.length := by
      have : b.length % u32size ≤ b.length := Nat.mod_le _ _
      omega
    obtain ⟨st, hst⟩ := Writer.storeLoop_isSome (n := burst) hcap0 hlen hble
    refine ⟨Writer.advance_index { s with buffer := st } burst, ?_, ?_, rfl, rfl, ?_, rfl, rfl⟩
    · simp only [Writer.write, hpos, if_true, ← hburst, hst]
    · have hstlen : st.length = s.capacity := by
        rw [Writer.storeLoop_length hst]; exact hlen
      have hbound : wrapSub s.tail s.head + burst ≤ s.capacity := by omega
      have hdlt : wrapSub s.tail s.head + burst < u32size := by omega
      refine ⟨hh, wrapAdd_lt _ _, hc, ?_, hstlen, rfl, hr⟩
      show wrapSub (wrapAdd s.tail burst) s.head ≤ s.capacity
      rw [wrapSub_wrapAdd_left ht hh hdlt]
      exact hbound
    · exact Writer.storeLoop_length hst

/-- Characterization of Reader::read on states satisfying the invariant: it
always succeeds (no panic), returns min(filled, len as u32), keeps tail, the
storage, the capacity and the writer side unchanged, length-preserves the out
buffer, and advances head by the returned count. -/
lemma read_some {T : Type} {s : SpscState T} (out : List T) (h : SpscInv s) :
    ∃ o' s', Reader.read s out =
        some (min (Reader.available s) (out.length % u32size), o', s') ∧
      SpscInv s' ∧ o'.length = out.length ∧
      s'.tail = s.tail ∧ s'.buffer = s.buffer ∧ s'.capacity = s.capacity ∧
      s'.writerIndex = s.writerIndex ∧
      s'.head = wrapAdd s.head (min (Reader.available s) (out.length % u32size)) := by
  obtain ⟨hh, ht, hc, hd, hlen, hw, hr⟩ := h
  by_cases h0 : Reader.available s = 0
  · refine ⟨out, s, ?_, ⟨hh, ht, hc, hd, hlen, hw, hr⟩, rfl, rfl, rfl, rfl, rfl, ?_⟩
    · simp only [Reader.read, h0, Nat.lt_irrefl, if_false, Nat.zero_min]
    · rw [h0, Nat.zero_min, wrapAdd_zero hh]
  · have hpos : 0 < Reader.available s := Nat.pos_of_ne_zero h0
    have hfill : Reader.available s = wrapSub s.tail s.head := rfl
    have hcap0 : s.capacity ≠ 0 := by omega
    set burst := min (Reader.available s) (out.length % u32size) with hburst
    have hole : burst ≤ out.length := by
      have : out.length % u32size ≤ out.length := Nat.mod_le _ _
      omega
    obtain ⟨o, ho⟩ := Reader.copyLoop_isSome (n := burst) hcap0 hlen hole
    have hble : burst ≤ wrapSub s.tail s.head := by
      rw [hfill] at hburst
      omega
    refine ⟨o, Reader.advance_index s burst, ?_, ?_, Reader.copyLoop_length ho,
      rfl, rfl, rfl, rfl, rfl⟩
    · simp only [Reader.read, hpos, if_true, ← hburst, ho]
    · refine ⟨wrapAdd_lt _ _, ht, hc, ?_, hlen, hw, rfl⟩
      show wrapSub s.tail (wrapAdd s.head burst) ≤ s.capacity
      rw [wrapSub_wrapAdd_right ht hh hble]
      omega

/-- Every single operation from an invariant state succeeds and preserves the
invariant. -/
lemma step_some {T : Type} {s : SpscState T} (op : SpscOp T) (h : SpscInv s) :
    ∃ s', step s op = some s' ∧ SpscInv s' := by
  cases op with
  | write b =>
    obtain ⟨s', hw, hinv, -⟩ := write_some b h
    exact ⟨s', by simp [step, hw], hinv⟩
  | read o =>
    obtain ⟨o', s', hr, hinv, -⟩ := read_some o h
    exact ⟨s', by simp [step, hr], hinv⟩

/-- Every finite operation sequence from an invariant state succeeds and ends
in an invariant state. -/
lemma run_some {T : Type} {s : SpscState T} (ops : List (SpscOp T))
    (h : SpscInv s) : ∃ s', run s ops = some s' ∧ SpscInv s' := by
  induction ops generalizing s with
  | nil => exact ⟨s, rfl, h⟩
  | cons op ops ih =>
    obtain ⟨s1, hs1, hinv1⟩ := step_some op h
    obtain ⟨s', hs', hinv'⟩ := ih hinv1
    exact ⟨s', by simp [run, hs1, hs'], hinv'⟩

/-- The freshly constructed state satisfies the invariant for every capacity
below the u32 modulus. -/
lemma initState_inv {T : Type} (z : T) {cap : Nat} (hcap : cap < u32size) :
    SpscInv (initState z cap) := by
  refine ⟨?_, ?_, hcap, ?_, ?_, rfl, rfl⟩ <;>
    simp [initState, wrapSub, u32size]

/-- C1 counterexample: on a fresh capacity-1 buffer, writing the 2-element
slice [7, 8] stores one element and returns 1, a count strictly between 0 and
the slice length, so write is not all-or-nothing. -/
theorem write_partial_burst_cex :
    Writer.write (⟨[0], 1, 0, 0, 0, 0⟩ : SpscState Nat) [7, 8] =
      some (1, ⟨[7], 1, 0, 1, 1, 0⟩) ∧
    (0 : Nat) < 1 ∧ 1 < [7, 8].length := by
  decide

/-- C1 (amended): on every invariant state, write(elements) succeeds and
returns exactly min(free space, len(elements) as u32): the whole slice when
it fits, 0 on a full buffer, and a partial burst when 0 < free < len. -/
theorem write_returns_min_free_len {T : Type} (s : SpscState T) (b : List T)
    (h : SpscInv s) :
    ∃ s', Writer.write s b =
      some (min (Writer.available s) (b.length % u32size), s') := by
  obtain ⟨s', hw, -⟩ := write_some b h
  exact ⟨s', hw⟩

/-- C1 witness: the amended statement evaluated on a fresh capacity-2
buffer. -/
theorem write_returns_min_free_len_witness :
    SpscInv (⟨[0, 0], 2, 0, 0, 0, 0⟩ : SpscState Nat) ∧
    ∃ s', Writer.write (⟨[0, 0], 2, 0, 0, 0, 0⟩ : SpscState Nat) [5] =
      some (min (Writer.available (⟨[0, 0], 2, 0, 0, 0, 0⟩ : SpscState Nat))
        ([5].length % u32size), s') :=
  ⟨by decide, write_returns_min_free_len _ [5] (by decide)⟩

/-- C2 counterexample: on a capacity-1 buffer holding one element, reading
into a 2-slot out buffer copies one element and returns 1, a count strictly
between 0 and the out-buffer length. -/
theorem read_partial_burst_cex :
    Reader.read (⟨[7], 1, 0, 1, 1, 0⟩ : SpscState Nat) [0, 0] =
      some (1, [7, 0], ⟨[7], 1, 1, 1, 1, 1⟩) ∧
    (0 : Nat) < 1 ∧ 1 < [0, 0].length := by
  decide

/-- C2 (amended): on every invariant state, read(outBuffer) succeeds and
returns exactly min(filled, len(outBuffer) as u32), preserving the length of
the out buffer: the whole out buffer when enough data is filled, 0 on an
empty buffer, and a partial burst when 0 < filled < len. -/
theorem read_returns_min_filled_len {T : Type} (s : SpscState T)
    (out : List T) (h : SpscInv s) :
    ∃ o' s', Reader.read s out =
      some (min (Reader.available s) (out.length % u32size), o', s') ∧
      o'.length = out.length := by
  obtain ⟨o', s', hr, -, hlen, -⟩ := read_some out h
  exact ⟨o', s', hr, hlen⟩

/-- C2 witness: the amended statement evaluated on a capacity-1 buffer
holding one element. -/
theorem read_returns_min_filled_len_witness :
    SpscInv (⟨[7], 1, 0, 1, 1, 0⟩ : SpscState Nat) ∧
    ∃ o' s', Reader.read (⟨[7], 1, 0, 1, 1, 0⟩ : SpscState Nat) [0, 0] =
      some (min (Reader.available (⟨[7], 1, 0, 1, 1, 0⟩ : SpscState Nat))
        ([0, 0].length % u32size), o', s') ∧
      o'.length = [0, 0].length :=
  ⟨by decide, read_returns_min_filled_len _ [0, 0] (by decide)⟩

/-- C3: from a freshly constructed buffer of any constructible capacity,
every finite sequence of writes and reads runs without panic, and every state
reached after each step keeps the wraparound difference tail - head between 0
and capacity (the lower bound is inherent in Nat; every prefix of a sequence
is itself a sequence, so this covers the state after each step). -/
theorem capacity_invariant_preserved {T : Type} (z : T) (cap : Nat)
    (hcap : cap < u32size) (ops : List (SpscOp T)) :
    ∃ s', run (initState z cap) ops = some s' ∧
      wrapSub s'.tail s'.head ≤ s'.capacity := by
  obtain ⟨s', hrun, hinv⟩ := run_some ops (initState_inv z hcap)
  exact ⟨s', hrun, hinv.2.2.2.1⟩

/-- C3 witness: the invariant statement evaluated on a capacity-4 buffer and
a concrete write-read sequence. -/
theorem capacity_invariant_preserved_witness :
    4 < u32size ∧
    ∃ s', run (initState (0 : Nat) 4)
        [SpscOp.write [1, 2], SpscOp.read [0]] = some s' ∧
      wrapSub s'.tail s'.head ≤ s'.capacity :=
  ⟨by decide,
    capacity_invariant_preserved 0 4 (by decide) [SpscOp.write [1, 2], SpscOp.read [0]]⟩

/-- C4: the concrete capacity-4 scenario of the spec: the six calls return
4, 0, 2, 1, 3, 0, the first read yields [1, 2] and the second read yields
[3, 4, 5]. -/
theorem scenario_capacity_four :
    Writer.write (initState (0 : Nat) 4) [1, 2, 3, 4] =
        some (4, ⟨[1, 2, 3, 4], 4, 0, 4, 4, 0⟩) ∧
    Writer.write (⟨[1, 2, 3, 4], 4, 0, 4, 4, 0⟩ : SpscState Nat) [5] =
        some (0, ⟨[1, 2, 3, 4], 4, 0, 4, 4, 0⟩) ∧
    Reader.read (⟨[1, 2, 3, 4], 4, 0, 4, 4, 0⟩ : SpscState Nat) [0, 0] =
        some (2, [1, 2], ⟨[1, 2, 3, 4], 4, 2, 4, 4, 2⟩) ∧
    Writer.write (⟨[1, 2, 3, 4], 4, 2, 4, 4, 2⟩ : SpscState Nat) [5] =
        some (1, ⟨[5, 2, 3, 4], 4, 2, 5, 5, 2⟩) ∧
    Reader.read (⟨[5, 2, 3, 4], 4, 2, 5, 5, 2⟩ : SpscState Nat) [0, 0, 0] =
        some (3, [3, 4, 5], ⟨[5, 2, 3, 4], 4, 5, 5, 5, 5⟩) ∧
    Reader.read (⟨[5, 2, 3, 4], 4, 5, 5, 5, 5⟩ : SpscState Nat) [0] =
        some (0, [0], ⟨[5, 2, 3, 4], 4, 5, 5, 5, 5⟩) := by
  decide

/-- C5: on every state whose counters satisfy the capacity invariant, the
writer free-space query equals capacity - ((tail - head) mod 2^32) and the
reader filled query equals (tail - head) mod 2^32, the inner subtraction
taken over the integers, so both are exact even after counter wraparound. -/
theorem available_counts_exact {T : Type} (s : SpscState T)
    (hh : s.head < u32size) (_ht : s.tail < u32size)
    (hc : s.capacity < u32size)
    (hinv : wrapSub s.tail s.head ≤ s.capacity) :
    (Writer.available s : Int) =
        (s.capacity : Int) - ((s.tail : Int) - (s.head : Int)) % 4294967296 ∧
    (Reader.available s : Int) =
        ((s.tail : Int) - (s.head : Int)) % 4294967296 := by
  simp only [Writer.available, Reader.available, wrapSub, u32size] at *
  omega

/-- C5 witness: the query characterization evaluated on a state whose tail
counter has wrapped past 2^32 while head has not yet wrapped. -/
theorem available_counts_exact_witness :
    (4294967295 : Nat) < u32size ∧ (1 : Nat) < u32size ∧ (3 : Nat) < u32size ∧
    wrapSub (1 : Nat) 4294967295 ≤ 3 ∧
    ((Writer.available (⟨[0, 0, 0], 3, 4294967295, 1, 1, 4294967295⟩ : SpscState Nat) : Int) =
        (3 : Int) - ((1 : Int) - (4294967295 : Int)) % 4294967296 ∧
      (Reader.available (⟨[0, 0, 0], 3, 4294967295, 1, 1, 4294967295⟩ : SpscState Nat) : Int) =
        ((1 : Int) - (4294967295 : Int)) % 4294967296) :=
  ⟨by decide, by decide, by decide, by decide,
    available_counts_exact ⟨[0, 0, 0], 3, 4294967295, 1, 1, 4294967295⟩
      (by decide) (by decide) (by decide) (by decide)⟩

/-- C6: on every invariant state of the degenerate capacity-0 buffer, write
and read succeed (some, not none: the modulo-capacity reduction in get_mut
and get is never evaluated since both availability queries return 0), return
count 0, and leave the state and the out buffer unchanged. -/
theorem zero_capacity_all_return_zero {T : Type} (s : SpscState T)
    (h : SpscInv s) (hcap : s.capacity = 0) (b out : List T) :
    Writer.write s b = some (0, s) ∧
    Reader.read s out = some (0, out, s) := by
  have hd : wrapSub s.tail s.head = 0 := by
    have := h.2.2.2.1
    omega
  have hw : Writer.available s = 0 := by
    show wrapSub s.capacity (wrapSub s.tail s.head) = 0
    rw [hd, hcap]
    decide
  have hr : Reader.available s = 0 := hd
  constructor
  · simp [Writer.write, hw]
  · simp [Reader.read, hr]

/-- C6 witness: the capacity-0 statement evaluated on the fresh capacity-0
buffer with concrete slices. -/
theorem zero_capacity_all_return_zero_witness :
    SpscInv (initState (0 : Nat) 0) ∧ (initState (0 : Nat) 0).capacity = 0 ∧
    (Writer.write (initState (0 : Nat) 0) [5] = some (0, initState (0 : Nat) 0) ∧
      Reader.read (initState (0 : Nat) 0) [9] = some (0, [9], initState (0 : Nat) 0)) :=
  ⟨by decide, by decide,
    zero_capacity_all_return_zero (initState (0 : Nat) 0) (by decide) (by decide) [5] [9]⟩

/-- C7 counterexample: constructing with capacity 2^32 panics inside
capacity.try_into().unwrap() (modelled as none), so it neither returns an Ok
pair nor fails with the Initialize error. -/
theorem new_huge_capacity_panics_cex :
    RingBuffer.new (0 : Nat) 4294967296 = none := by
  rfl

/-- C7 (amended): for every positive capacity below 2^32, construction
returns the Ok pair (never the Initialize error, never a panic), and no
subsequent sequence of writes and reads panics; the restriction to
capacities below 2^32 is forced by the unwrap panic of the u32 conversion. -/
theorem new_ok_and_operations_total {T : Type} (z : T) (cap : Nat)
    (_hpos : 0 < cap) (hcap : cap < u32size) :
    RingBuffer.new z cap = some (Except.ok (initState z cap)) ∧
    ∀ ops : List (SpscOp T), ∃ s', run (initState z cap) ops = some s' := by
  constructor
  · simp [RingBuffer.new, nonNullNew, boxIntoRaw, hcap]
  · intro ops
    obtain ⟨s', hs', -⟩ := run_some ops (initState_inv z hcap)
    exact ⟨s', hs'⟩

/-- C7 witness: the amended statement evaluated at capacity 2. -/
theorem new_ok_and_operations_total_witness :
    (0 : Nat) < 2 ∧ (2 : Nat) < u32size ∧
    (RingBuffer.new (0 : Nat) 2 = some (Except.ok (initState (0 : Nat) 2)) ∧
      ∀ ops : List (SpscOp Nat), ∃ s', run (initState (0 : Nat) 2) ops = some s') :=
  ⟨by decide, by decide, new_ok_and_operations_total 0 2 (by decide) (by decide)⟩

/-- C8: on every state with u32 cursors, write leaves head, capacity and the
reader cursor unchanged and advances tail by exactly the returned count, and
read leaves tail, the storage vector, capacity and the writer cursor
unchanged and advances head by exactly the returned count. -/
theorem frame_conditions {T : Type} (s : SpscState T) (b out : List T)
    (ht : s.tail < u32size) (hh : s.head < u32size) :
    (∀ n s', Writer.write s b = some (n, s') →
      s'.head = s.head ∧ s'.capacity = s.capacity ∧
      s'.readerIndex = s.readerIndex ∧ s'.tail = wrapAdd s.tail n) ∧
    (∀ n o' s', Reader.read s out = some (n, o', s') →
      s'.tail = s.tail ∧ s'.buffer = s.buffer ∧ s'.capacity = s.capacity ∧
      s'.writerIndex = s.writerIndex ∧ s'.head = wrapAdd s.head n) := by
  constructor
  · intro n s' hws
    simp only [Writer.write] at hws
    split at hws
    · cases hst : Writer.storeLoop s b (min (Writer.available s) (b.length % u32size)) with
      | none =>
        rw [hst] at hws
        exact absurd hws (by simp)
      | some st =>
        rw [hst] at hws
        simp only [Option.some.injEq, Prod.mk.injEq] at hws
        obtain ⟨hn, hs'⟩ := hws
        subst hn
        subst hs'
        exact ⟨rfl, rfl, rfl, rfl⟩
    · simp only [Option.some.injEq, Prod.mk.injEq] at hws
      obtain ⟨hn, hs'⟩ := hws
      subst hn
      subst hs'
      exact ⟨rfl, rfl, rfl, (wrapAdd_zero ht).symm⟩
  · intro n o' s' hrs
    simp only [Reader.read] at hrs
    split at hrs
    · cases ho : Reader.copyLoop s out (min (Reader.available s) (out.length % u32size)) with
      | none =>
        rw [ho] at hrs
        exact absurd hrs (by simp)
      | some o =>
        rw [ho] at hrs
        simp only [Option.some.injEq, Prod.mk.injEq] at hrs
        obtain ⟨hn, ho', hs'⟩ := hrs
        subst hn
        subst hs'
        exact ⟨rfl, rfl, rfl, rfl, rfl⟩
    · simp only [Option.some.injEq, Prod.mk.injEq] at hrs
      obtain ⟨hn, ho', hs'⟩ := hrs
      subst hn
      subst hs'
      exact ⟨rfl, rfl, rfl, rfl, (wrapAdd_zero hh).symm⟩

/-- C8 witness: the frame conditions evaluated on a fresh capacity-2
buffer. -/
theorem frame_conditions_witness :
    (0 : Nat) < u32size ∧ (0 : Nat) < u32size ∧
    ((∀ n s', Writer.write (⟨[0, 0], 2, 0, 0, 0, 0⟩ : SpscState Nat) [1] = some (n, s') →
        s'.head = 0 ∧ s'.capacity = 2 ∧ s'.readerIndex = 0 ∧ s'.tail = wrapAdd 0 n) ∧
      (∀ n o' s', Reader.read (⟨[0, 0], 2, 0, 0, 0, 0⟩ : SpscState Nat) [0] = some (n, o', s') →
        s'.tail = 0 ∧ s'.buffer = [0, 0] ∧ s'.capacity = 2 ∧
        s'.writerIndex = 0 ∧ s'.head = wrapAdd 0 n)) :=
  ⟨by decide, by decide,
    frame_conditions ⟨[0, 0], 2, 0, 0, 0, 0⟩ [1] [0] (by decide) (by decide)⟩

/-- C9: after construction (cached indices start at the cursors) and after
every sequential sequence of writes and reads, the cached writer index equals
the shared tail counter and the cached reader index equals the shared head
counter. -/
theorem cached_indices_track_cursors {T : Type} (z : T) (cap : Nat)
    (hcap : cap < u32size) (ops : List (SpscOp T)) :
    (initState z cap).writerIndex = (initState z cap).tail ∧
    (initState z cap).readerIndex = (initState z cap).head ∧
    ∃ s', run (initState z cap) ops = some s' ∧
      s'.writerIndex = s'.tail ∧ s'.readerIndex = s'.head := by
  refine ⟨rfl, rfl, ?_⟩
  obtain ⟨s', hrun, hinv⟩ := run_some ops (initState_inv z hcap)
  exact ⟨s', hrun, hinv.2.2.2.2.2.1, hinv.2.2.2.2.2.2⟩

/-- C9 witness: the cursor-tracking statement evaluated at capacity 3 with a
concrete operation sequence. -/
theorem cached_indices_track_cursors_witness :
    (3 : Nat) < u32size ∧
    ((initState (0 : Nat) 3).writerIndex = (initState (0 : Nat) 3).tail ∧
      (initState (0 : Nat) 3).readerIndex = (initState (0 : Nat) 3).head ∧
      ∃ s', run (initState (0 : Nat) 3)
          [SpscOp.write [4, 5], SpscOp.read [0]] = some s' ∧
        s'.writerIndex = s'.tail ∧ s'.readerIndex = s'.head) :=
  ⟨by decide,
    cached_indices_track_cursors 0 3 (by decide) [SpscOp.write [4, 5], SpscOp.read [0]]⟩

/-- C10: for every capacity representable in u32, construction never yields
the Initialize error (the boxed vector pointer is non-null by the Rust Box
guarantee encoded in boxIntoRaw) and returns the Ok state with head = tail =
0 and exactly capacity zero-initialized elements. -/
theorem new_never_initialize_error {T : Type} (z : T) (cap : Nat)
    (hcap : cap < u32size) :
    RingBuffer.new z cap = some (Except.ok (initState z cap)) ∧
    (∀ e, RingBuffer.new z cap ≠ some (Except.error e)) ∧
    (initState z cap).head = 0 ∧ (initState z cap).tail = 0 ∧
    (initState z cap).buffer = List.replicate cap z ∧
    (initState z cap).buffer.length = cap := by
  have hok : RingBuffer.new z cap = some (Except.ok (initState z cap)) := by
    simp [RingBuffer.new, nonNullNew, boxIntoRaw, hcap]
  refine ⟨hok, ?_, rfl, rfl, rfl, List.length_replicate _ _⟩
  intro e he
  rw [hok] at he
  exact absurd he (by simp)

/-- C10 witness: the construction characterization evaluated at capacity 3. -/
theorem new_never_initialize_error_witness :
    (3 : Nat) < u32size ∧
    (RingBuffer.new (0 : Nat) 3 = some (Except.ok (initState (0 : Nat) 3)) ∧
      (∀ e, RingBuffer.new (0 : Nat) 3 ≠ some (Except.error e)) ∧
      (initState (0 : Nat) 3).head = 0 ∧ (initState (0 : Nat) 3).tail = 0 ∧
      (initState (0 : Nat) 3).buffer = List.replicate 3 (0 : Nat) ∧
      (initState (0 : Nat) 3).buffer.length = 3) :=
  ⟨by decide, new_never_initialize_error 0 3 (by decide)⟩
